import Mathlib

/-!
Shallow embedding of the railway scheduling core
(`src/utils/railwayScheduler.ts` and `src/types/railway.ts`) of the
rail-flow-wizard repository, together with theorems settling the
specification claims about it.

Modelling conventions:
* JavaScript numbers are modelled as rationals (`ℚ`); counts and track
  indices are `ℕ`.
* A JavaScript truthiness test `!x` on an optional numeric field is
  modelled by `truthyQ`: `none` (undefined) and `some 0` are falsy,
  everything else truthy.
* `Record<number, number>` utilization, pre-populated with keys
  `0 .. tracks-1`, is modelled as a `List ℚ` of length `tracks`
  indexed by track id; an update at an out-of-range key (which in JS
  would create a fresh NaN-valued key outside the pre-populated range)
  is dropped by `List.set`.  All claims only inspect keys `< tracks`.
* The mutable loops of the source become folds threading explicit
  state; the bounded `while` of the local improver becomes fuel-based
  recursion with fuel 10, matching the source's `maxIterations`.
* `trains.find(...)!` (non-null assertion) is modelled by `List.find?`;
  the `none` case, which in JS would be a runtime `TypeError`, leaves
  the state unchanged, and is proved unreachable for the schedules the
  pipeline produces.
-/

namespace RailFlow

/-- Train priority, `"high" | "medium" | "low"` from `railway.ts`. -/
inductive Priority where
  | high
  | medium
  | low
deriving DecidableEq

/-- `PRIORITY_WEIGHTS` from `railway.ts`: high 3.0, medium 2.0, low 1.0. -/
def PRIORITY_WEIGHTS : Priority → ℚ
  | .high => 3
  | .medium => 2
  | .low => 1

/-- The `Train` interface from `railway.ts`; `duration` is the optional
computed traversal time. -/
structure Train where
  id : String
  scheduledArrival : ℚ
  speed : ℚ
  priority : Priority
  length : ℚ
  duration : Option ℚ := none
deriving DecidableEq

/-- The `RailwayConfig` interface from `railway.ts`. -/
structure RailwayConfig where
  sectionLength : ℚ
  timeHorizon : ℚ
  tracks : ℕ
  maxTrainsPerTrack : ℕ
  safetyHeadway : ℚ
deriving DecidableEq

/-- The `TrainAssignment` interface from `railway.ts`. -/
structure TrainAssignment where
  trainId : String
  trackId : ℕ
  actualArrival : ℚ
  delay : ℚ
deriving DecidableEq

/-- The `Schedule` interface from `railway.ts`; `utilization` is indexed
by track id. -/
structure Schedule where
  assignments : List TrainAssignment
  totalDelay : ℚ
  weightedDelay : ℚ
  finished : ℕ
  utilization : List ℚ
deriving DecidableEq

/-- Disruption kind, `"delay" | "block_track"`. -/
inductive DisruptionType where
  | delay
  | block_track
deriving DecidableEq

/-- The `Disruption` interface from `railway.ts` (optional fields). -/
structure Disruption where
  type : DisruptionType
  trainId : Option String := none
  delayMinutes : Option ℚ := none
  trackId : Option ℕ := none
deriving DecidableEq

/-- JavaScript truthiness of an optional number: `undefined` and `0`
are falsy. -/
def truthyQ : Option ℚ → Bool
  | none => false
  | some d => d != 0

/-- `computeTraversalTime`: `(sectionKm / speedKmh) * 60`.  (In JS,
division by zero yields Infinity; over `ℚ` it yields 0.  The claims
about zero speed are settled through inputs with nonzero speed, where
the two semantics agree.) -/
def computeTraversalTime (sectionKm speedKmh : ℚ) : ℚ :=
  sectionKm / speedKmh * 60

/-- `prepareTrainsData`: copy every train, setting its `duration`. -/
def prepareTrainsData (trains : List Train) (config : RailwayConfig) : List Train :=
  trains.map fun train =>
    { train with duration := some (computeTraversalTime config.sectionLength train.speed) }

/-- The sort comparator of `greedySchedule` as a boolean `le`:
priority weight descending, then scheduled arrival ascending, exactly
the stable order of the source's `sort`. -/
def trainLE (a b : Train) : Bool :=
  if PRIORITY_WEIGHTS a.priority ≠ PRIORITY_WEIGHTS b.priority then
    PRIORITY_WEIGHTS b.priority ≤ PRIORITY_WEIGHTS a.priority
  else
    a.scheduledArrival ≤ b.scheduledArrival

/-- Accumulator for `computeScheduleMetrics`. -/
structure MetricsAcc where
  totalDelay : ℚ
  weightedDelay : ℚ
  finished : ℕ
  utilization : List ℚ
deriving DecidableEq

/-- One step of the `computeScheduleMetrics` loop body. -/
def metricsStep (trains : List Train) (config : RailwayConfig)
    (acc : MetricsAcc) (assignment : TrainAssignment) : MetricsAcc :=
  match trains.find? (fun t => t.id == assignment.trainId) with
  | none => acc
  | some train =>
    if truthyQ train.duration then
      let d := train.duration.getD 0
      { totalDelay := acc.totalDelay + assignment.delay
        weightedDelay := acc.weightedDelay + assignment.delay * PRIORITY_WEIGHTS train.priority
        finished := if assignment.actualArrival + d ≤ config.timeHorizon then
            acc.finished + 1
          else acc.finished
        utilization := acc.utilization.set assignment.trackId
            (acc.utilization.getD assignment.trackId 0 + d) }
    else acc

/-- `computeScheduleMetrics` from `railwayScheduler.ts`. -/
def computeScheduleMetrics (assignments : List TrainAssignment)
    (trains : List Train) (config : RailwayConfig) : Schedule :=
  let acc := assignments.foldl (metricsStep trains config)
    { totalDelay := 0, weightedDelay := 0, finished := 0,
      utilization := List.replicate config.tracks 0 }
  { assignments := assignments
    totalDelay := acc.totalDelay
    weightedDelay := acc.weightedDelay
    finished := acc.finished
    utilization := acc.utilization }

/-- One step of the track-scanning loop of `greedySchedule` (lines
33-41): update the running best `(track, startTime)` pair. -/
def chooseStep (config : RailwayConfig) (scheduledArrival d : ℚ)
    (tracksNextFree : List ℚ) (b : ℕ × ℚ) (trackId : ℕ) : ℕ × ℚ :=
  let startTime := max scheduledArrival (tracksNextFree.getD trackId 0)
  if startTime + d ≤ config.timeHorizon ∧ startTime < b.2 then
    (trackId, startTime)
  else b

/-- The track-choice loop of `greedySchedule`: scan all tracks starting
from `(0, max scheduledArrival tracksNextFree[0])`. -/
def chooseTrack (config : RailwayConfig) (scheduledArrival d : ℚ)
    (tracksNextFree : List ℚ) : ℕ × ℚ :=
  (List.range config.tracks).foldl
    (chooseStep config scheduledArrival d tracksNextFree)
    (0, max scheduledArrival (tracksNextFree.getD 0 0))

/-- The body of `greedySchedule`'s main loop: state is
`(tracksNextFree, assignments)`. -/
def schedStep (config : RailwayConfig)
    (st : List ℚ × List TrainAssignment) (train : Train) :
    List ℚ × List TrainAssignment :=
  if truthyQ train.duration then
    let d := train.duration.getD 0
    let best := chooseTrack config train.scheduledArrival d st.1
    let delay := max 0 (best.2 - train.scheduledArrival)
    (st.1.set best.1 (best.2 + d + config.safetyHeadway),
     st.2 ++ [{ trainId := train.id, trackId := best.1,
                actualArrival := best.2, delay := delay }])
  else st

/-- `greedySchedule` from `railwayScheduler.ts`.  JavaScript `sort` is
stable, so the sorted train list is the stable sort of `trains` for the
comparator's total preorder; `insertionSort` produces exactly that
stable order. -/
def greedySchedule (trains : List Train) (config : RailwayConfig) : Schedule :=
  let sortedTrains := List.insertionSort (fun a b => trainLE a b = true) trains
  let final := sortedTrains.foldl (schedStep config)
    (List.replicate config.tracks 0, [])
  computeScheduleMetrics final.2 trains config

/-- `trySwapTrains` from `railwayScheduler.ts`. -/
def trySwapTrains (assignments : List TrainAssignment)
    (assignment1 assignment2 : TrainAssignment)
    (trains : List Train) (config : RailwayConfig) :
    Option (List TrainAssignment) :=
  match trains.find? (fun t => t.id == assignment1.trainId),
        trains.find? (fun t => t.id == assignment2.trainId) with
  | some train1, some train2 =>
    if truthyQ train1.duration ∧ truthyQ train2.duration then
      let d1 := train1.duration.getD 0
      let d2 := train2.duration.getD 0
      let newTime1 := max train1.scheduledArrival assignment2.actualArrival
      let newTime2 := max train2.scheduledArrival assignment1.actualArrival
      if newTime1 + d1 + config.safetyHeadway > newTime2 ∨
          newTime2 + d2 > config.timeHorizon then
        none
      else
        some (assignments.map fun a =>
          if a.trainId = assignment1.trainId then
            { a with actualArrival := newTime1,
                     delay := max 0 (newTime1 - train1.scheduledArrival) }
          else if a.trainId = assignment2.trainId then
            { a with actualArrival := newTime2,
                     delay := max 0 (newTime2 - train2.scheduledArrival) }
          else a)
    else none
  | _, _ => none

/-- State threaded through `applyLocalImprovements`: the mutable
`assignments` array, the current `schedule`, and the `improved` flag. -/
structure ImproveState where
  assignments : List TrainAssignment
  schedule : Schedule
  improved : Bool

/-- Sort key of the per-track assignment list: actual arrival
ascending. -/
def arrivalLE (a b : TrainAssignment) : Bool :=
  a.actualArrival ≤ b.actualArrival

/-- The body of the adjacent-pair loop of `applyLocalImprovements`
(lines 86-102), for the stale snapshot pair `(a1, a2)`. -/
def stepPair (trains : List Train) (config : RailwayConfig)
    (a1 a2 : TrainAssignment) (st : ImproveState) : ImproveState :=
  match trains.find? (fun t => t.id == a1.trainId),
        trains.find? (fun t => t.id == a2.trainId) with
  | some train1, some train2 =>
    if PRIORITY_WEIGHTS train1.priority < PRIORITY_WEIGHTS train2.priority then
      match trySwapTrains st.assignments a1 a2 trains config with
      | some newAssignments =>
        let newSchedule := computeScheduleMetrics newAssignments trains config
        if newSchedule.weightedDelay < st.schedule.weightedDelay then
          { assignments := newAssignments, schedule := newSchedule,
            improved := true }
        else st
      | none => st
    else st
  | _, _ => st

/-- The per-track loop body of `applyLocalImprovements`: snapshot the
track's assignments sorted by actual arrival, then scan adjacent pairs
of the (stale) snapshot while the live assignment list evolves. -/
def stepTrack (trains : List Train) (config : RailwayConfig)
    (st : ImproveState) (trackId : ℕ) : ImproveState :=
  let trackAssignments :=
    List.insertionSort (fun a b => arrivalLE a b = true)
      (st.assignments.filter (fun a => a.trackId == trackId))
  (List.range (trackAssignments.length - 1)).foldl
    (fun s i =>
      match trackAssignments.get? i, trackAssignments.get? (i + 1) with
      | some a1, some a2 => stepPair trains config a1 a2 s
      | _, _ => s)
    st

/-- The bounded `while (improved && iterations < maxIterations)` loop
of `applyLocalImprovements`, as fuel recursion. -/
def runPasses (trains : List Train) (config : RailwayConfig) :
    ℕ → ImproveState → ImproveState
  | 0, st => st
  | fuel + 1, st =>
    if st.improved then
      runPasses trains config fuel
        ((List.range config.tracks).foldl (stepTrack trains config)
          { st with improved := false })
    else st

/-- `applyLocalImprovements` from `railwayScheduler.ts`
(`maxIterations = 10`). -/
def applyLocalImprovements (schedule : Schedule) (trains : List Train)
    (config : RailwayConfig) : Schedule :=
  (runPasses trains config 10
    { assignments := schedule.assignments, schedule := schedule,
      improved := true }).schedule

/-- `optimizedSchedule` from `railwayScheduler.ts`. -/
def optimizedSchedule (trains : List Train) (config : RailwayConfig) : Schedule :=
  applyLocalImprovements (greedySchedule trains config) trains config

/-- `applyDisruption` from `railwayScheduler.ts`. -/
def applyDisruption (trains : List Train) (disruption : Disruption) : List Train :=
  trains.map fun train =>
    if disruption.type = DisruptionType.delay ∧
        disruption.trainId = some train.id ∧
        truthyQ disruption.delayMinutes then
      { train with scheduledArrival :=
          train.scheduledArrival + disruption.delayMinutes.getD 0 }
    else train

/-- `rescheduleWithDisruption` from `railwayScheduler.ts`; the pair is
`(before, after)`. -/
def rescheduleWithDisruption (trains : List Train) (config : RailwayConfig)
    (disruption : Disruption) : Schedule × Schedule :=
  let beforeTrains := prepareTrainsData trains config
  let beforeSchedule := optimizedSchedule beforeTrains config
  let afterTrains := prepareTrainsData (applyDisruption trains disruption) config
  let modifiedConfig :=
    if disruption.type = DisruptionType.block_track ∧ disruption.trackId ≠ none then
      { config with tracks := config.tracks - 1 }
    else config
  (beforeSchedule, optimizedSchedule afterTrains modifiedConfig)

/-- Duration of the train an assignment refers to, read back through
the same id lookup the source uses (0 when missing). -/
def assnDur (trains : List Train) (a : TrainAssignment) : ℚ :=
  match trains.find? (fun t => t.id == a.trainId) with
  | some t => t.duration.getD 0
  | none => 0

/-- Priority weight of the train an assignment refers to (0 when the
train is missing). -/
def assnWeight (trains : List Train) (a : TrainAssignment) : ℚ :=
  match trains.find? (fun t => t.id == a.trainId) with
  | some t => PRIORITY_WEIGHTS t.priority
  | none => 0

/-! ### Generic fold lemmas -/

theorem foldl_invariant {α β : Type _} (f : β → α → β) (P : β → Prop)
    (l : List α) (b : β) (h0 : P b)
    (hstep : ∀ c a, a ∈ l → P c → P (f c a)) : P (l.foldl f b) := by
  induction l generalizing b with
  | nil => exact h0
  | cons x xs ih =>
    exact ih (f b x) (hstep b x (List.mem_cons_self x xs) h0)
      (fun c a ha hc => hstep c a (List.mem_cons_of_mem x ha) hc)

theorem foldl_fixed {α β : Type _} (f : β → α → β) (l : List α) (b : β)
    (h : ∀ a, a ∈ l → f b a = b) : l.foldl f b = b := by
  induction l with
  | nil => rfl
  | cons x xs ih =>
    have hx : f b x = b := h x (List.mem_cons_self x xs)
    simpa [List.foldl_cons, hx] using
      ih (fun a ha => h a (List.mem_cons_of_mem x ha))

/-! ### Comparator facts -/

theorem trainLE_total (a b : Train) : trainLE a b = true ∨ trainLE b a = true := by
  unfold trainLE
  by_cases h : PRIORITY_WEIGHTS a.priority = PRIORITY_WEIGHTS b.priority
  · rcases le_total a.scheduledArrival b.scheduledArrival with h1 | h1
    · left; simp [h, h1]
    · right; simp [h.symm, h1]
  · rcases le_total (PRIORITY_WEIGHTS a.priority) (PRIORITY_WEIGHTS b.priority) with h1 | h1
    · right; simp [Ne.symm h, h1]
    · left; simp [h, h1]

theorem trainLE_trans (a b c : Train) (hab : trainLE a b = true)
    (hbc : trainLE b c = true) : trainLE a c = true := by
  unfold trainLE at hab hbc ⊢
  rcases eq_or_ne (PRIORITY_WEIGHTS a.priority) (PRIORITY_WEIGHTS b.priority) with h1 | h1 <;>
    rcases eq_or_ne (PRIORITY_WEIGHTS b.priority) (PRIORITY_WEIGHTS c.priority) with h2 | h2
  · rw [if_neg (not_not_intro h1)] at hab
    rw [if_neg (not_not_intro h2)] at hbc
    rw [if_neg (not_not_intro (h1.trans h2))]
    simp only [decide_eq_true_eq] at hab hbc ⊢
    exact le_trans hab hbc
  · have h3 : PRIORITY_WEIGHTS a.priority ≠ PRIORITY_WEIGHTS c.priority := by
      rw [h1]; exact h2
    rw [if_pos h2] at hbc
    rw [if_pos h3]
    simp only [decide_eq_true_eq] at hbc ⊢
    rw [h1]
    exact hbc
  · have h3 : PRIORITY_WEIGHTS a.priority ≠ PRIORITY_WEIGHTS c.priority := by
      rw [← h2]; exact h1
    rw [if_pos h1] at hab
    rw [if_pos h3]
    simp only [decide_eq_true_eq] at hab ⊢
    rw [← h2]
    exact hab
  · rw [if_pos h1] at hab
    rw [if_pos h2] at hbc
    simp only [decide_eq_true_eq] at hab hbc
    have hba : PRIORITY_WEIGHTS b.priority < PRIORITY_WEIGHTS a.priority :=
      lt_of_le_of_ne hab (Ne.symm h1)
    have hcb : PRIORITY_WEIGHTS c.priority < PRIORITY_WEIGHTS b.priority :=
      lt_of_le_of_ne hbc (Ne.symm h2)
    have h3 : PRIORITY_WEIGHTS a.priority ≠ PRIORITY_WEIGHTS c.priority :=
      Ne.symm (ne_of_lt (hcb.trans hba))
    rw [if_pos h3]
    simp only [decide_eq_true_eq]
    exact le_of_lt (hcb.trans hba)

theorem arrivalLE_total (a b : TrainAssignment) :
    arrivalLE a b = true ∨ arrivalLE b a = true := by
  unfold arrivalLE
  rcases le_total a.actualArrival b.actualArrival with h | h
  · left; simpa using h
  · right; simpa using h

theorem arrivalLE_trans (a b c : TrainAssignment) (hab : arrivalLE a b = true)
    (hbc : arrivalLE b c = true) : arrivalLE a c = true := by
  unfold arrivalLE at *
  simp only [decide_eq_true_eq] at *
  exact le_trans hab hbc

/-! ### Lookup facts -/

theorem find?_eq_of_nodup (trains : List Train) (t : Train)
    (ht : t ∈ trains) (hnd : (trains.map Train.id).Nodup) :
    trains.find? (fun u => u.id == t.id) = some t := by
  induction trains with
  | nil => cases ht
  | cons u us ih =>
    rcases List.mem_cons.mp ht with h | h
    · subst h
      simp [List.find?]
    · have hne : u.id ≠ t.id := by
        intro he
        have : u.id ∈ us.map Train.id := he ▸ List.mem_map_of_mem Train.id h
        exact (List.nodup_cons.mp hnd).1 this
      have : (u.id == t.id) = false := beq_false_of_ne hne
      simp only [List.find?, this]
      exact ih h (List.nodup_cons.mp hnd).2

/-! ### Track choice lemmas -/

/-- The running best of the track scan always names a scanned-or-initial
track, stores its candidate start, and stays in range. -/
theorem chooseTrack_shape (config : RailwayConfig) (s d : ℚ) (nf : List ℚ)
    (ht : 1 ≤ config.tracks) :
    (chooseTrack config s d nf).1 < config.tracks ∧
    (chooseTrack config s d nf).2 =
      max s (nf.getD (chooseTrack config s d nf).1 0) := by
  unfold chooseTrack
  exact foldl_invariant _
    (fun b : ℕ × ℚ => b.1 < config.tracks ∧ b.2 = max s (nf.getD b.1 0)) _ _
    ⟨ht, rfl⟩
    (fun b j hj hb => by
      unfold chooseStep
      dsimp only
      split
      · exact ⟨List.mem_range.mp hj, rfl⟩
      · exact hb)

/-- Invariant of the track scan after the first `n` tracks, where
`c j = max s (nf.getD j 0)` is track `j`'s candidate start. -/
theorem chooseScan_invariant (config : RailwayConfig) (s d : ℚ) (nf : List ℚ) :
    ∀ n : ℕ,
      (∀ j, j < n → max s (nf.getD j 0) + d ≤ config.timeHorizon →
        ((List.range n).foldl (chooseStep config s d nf)
          (0, max s (nf.getD 0 0))).2 ≤ max s (nf.getD j 0)) ∧
      ((List.range n).foldl (chooseStep config s d nf)
          (0, max s (nf.getD 0 0))).2 ≤ max s (nf.getD 0 0) ∧
      (((List.range n).foldl (chooseStep config s d nf)
          (0, max s (nf.getD 0 0))) = (0, max s (nf.getD 0 0)) ∨
        (((List.range n).foldl (chooseStep config s d nf)
            (0, max s (nf.getD 0 0))).1 < n ∧
         max s (nf.getD ((List.range n).foldl (chooseStep config s d nf)
            (0, max s (nf.getD 0 0))).1 0) + d ≤ config.timeHorizon ∧
         ((List.range n).foldl (chooseStep config s d nf)
            (0, max s (nf.getD 0 0))).2 =
           max s (nf.getD ((List.range n).foldl (chooseStep config s d nf)
            (0, max s (nf.getD 0 0))).1 0) ∧
         ((List.range n).foldl (chooseStep config s d nf)
            (0, max s (nf.getD 0 0))).2 < max s (nf.getD 0 0) ∧
         ∀ j, j < ((List.range n).foldl (chooseStep config s d nf)
            (0, max s (nf.getD 0 0))).1 →
           max s (nf.getD j 0) + d ≤ config.timeHorizon →
           ((List.range n).foldl (chooseStep config s d nf)
              (0, max s (nf.getD 0 0))).2 < max s (nf.getD j 0))) := by
  intro n
  induction n with
  | zero =>
    refine ⟨fun j hj => absurd hj (Nat.not_lt_zero j), le_refl _, Or.inl ?_⟩
    simp [List.range_zero]
  | succ n ih =>
    obtain ⟨ih1, ih2, ih3⟩ := ih
    set b := (List.range n).foldl (chooseStep config s d nf)
      (0, max s (nf.getD 0 0)) with hb
    have hstep : (List.range (n + 1)).foldl (chooseStep config s d nf)
        (0, max s (nf.getD 0 0)) = chooseStep config s d nf b n := by
      rw [List.range_succ, List.foldl_append, List.foldl_cons, List.foldl_nil, hb]
    rw [hstep]
    unfold chooseStep
    dsimp only
    split
    · rename_i hcond
      obtain ⟨hfeas, hlt⟩ := hcond
      refine ⟨?_, ?_, Or.inr ⟨Nat.lt_succ_self n, hfeas, rfl, lt_of_lt_of_le hlt ih2, ?_⟩⟩
      · intro j hj hfj
        rcases Nat.lt_succ_iff_lt_or_eq.mp hj with hj' | hj'
        · exact le_of_lt (lt_of_lt_of_le hlt (ih1 j hj' hfj))
        · subst hj'; exact le_refl _
      · exact le_of_lt (lt_of_lt_of_le hlt ih2)
      · intro j hj hfj
        exact lt_of_lt_of_le hlt (ih1 j hj hfj)
    · rename_i hcond
      push_neg at hcond
      refine ⟨?_, ih2, ?_⟩
      · intro j hj hfj
        rcases Nat.lt_succ_iff_lt_or_eq.mp hj with hj' | hj'
        · exact ih1 j hj' hfj
        · subst hj'; exact hcond hfj
      · rcases ih3 with h | ⟨ha, hb', hc, hd, he⟩
        · exact Or.inl h
        · exact Or.inr ⟨Nat.lt_succ_of_lt ha, hb', hc, hd, he⟩

/-! ### Greedy fold lemmas -/

theorem greedySchedule_assignments (trains : List Train) (config : RailwayConfig) :
    (greedySchedule trains config).assignments =
      ((List.insertionSort (fun a b => trainLE a b = true) trains).foldl
        (schedStep config) (List.replicate config.tracks 0, [])).2 := rfl

theorem schedFold_map_trainId (config : RailwayConfig) :
    ∀ (l : List Train) (st : List ℚ × List TrainAssignment),
      ((l.foldl (schedStep config) st).2).map TrainAssignment.trainId =
        st.2.map TrainAssignment.trainId ++
          (l.filter (fun t => truthyQ t.duration)).map Train.id := by
  intro l
  induction l with
  | nil => simp
  | cons t ts ih =>
    intro st
    rw [List.foldl_cons]
    cases h : truthyQ t.duration with
    | false =>
      rw [show schedStep config st t = st from by simp [schedStep, h]]
      rw [ih st]
      simp [List.filter_cons, h]
    | true =>
      rw [ih (schedStep config st t)]
      have h2 : (schedStep config st t).2.map TrainAssignment.trainId =
          st.2.map TrainAssignment.trainId ++ [t.id] := by
        simp [schedStep, h]
      rw [h2]
      simp [List.filter_cons, h]

/-- Every greedy assignment carries the id of a duration-truthy input
train, one assignment per such train (as a permutation of ids). -/
theorem greedy_map_trainId (trains : List Train) (config : RailwayConfig) :
    ((greedySchedule trains config).assignments.map TrainAssignment.trainId).Perm
      ((trains.filter (fun t => truthyQ t.duration)).map Train.id) := by
  rw [greedySchedule_assignments, schedFold_map_trainId]
  simp only [List.map_nil, List.nil_append]
  exact ((List.perm_insertionSort _ trains).filter _).map _

/-- Range, nonnegative delay, and delay/actual consistency of every
greedy assignment (no assumptions on durations or headway). -/
theorem greedy_inv6 (trains : List Train) (config : RailwayConfig)
    (ht : 1 ≤ config.tracks) :
    ∀ a ∈ (greedySchedule trains config).assignments,
      a.trackId < config.tracks ∧ 0 ≤ a.delay ∧
      ∃ t ∈ trains, t.id = a.trainId ∧ t.scheduledArrival ≤ a.actualArrival ∧
        a.delay = max 0 (a.actualArrival - t.scheduledArrival) := by
  rw [greedySchedule_assignments]
  refine foldl_invariant (schedStep config)
    (fun st : List ℚ × List TrainAssignment => ∀ a ∈ st.2,
      a.trackId < config.tracks ∧ 0 ≤ a.delay ∧
      ∃ t ∈ trains, t.id = a.trainId ∧ t.scheduledArrival ≤ a.actualArrival ∧
        a.delay = max 0 (a.actualArrival - t.scheduledArrival)) _ _
    (fun a ha => absurd ha (List.not_mem_nil a)) ?_
  intro st tr htr hst
  have htr' : tr ∈ trains := (List.perm_insertionSort _ trains).mem_iff.mp htr
  unfold schedStep
  cases h : truthyQ tr.duration with
  | false => simpa using hst
  | true =>
    simp only [if_pos rfl, if_true]
    intro a ha
    rcases List.mem_append.mp ha with ha' | ha'
    · exact hst a ha'
    · rw [List.mem_singleton] at ha'
      subst ha'
      obtain ⟨hs1, hs2⟩ := chooseTrack_shape config tr.scheduledArrival
        (tr.duration.getD 0) st.1 ht
      refine ⟨hs1, le_max_left 0 _, tr, htr', rfl, ?_, rfl⟩
      show tr.scheduledArrival ≤ (chooseTrack config tr.scheduledArrival (tr.duration.getD 0) st.1).2
      rw [hs2]
      exact le_max_left _ _

/-- Headway separation between two assignments on a common track (the
later one starts no earlier than the earlier one's occupancy end plus
the safety headway). -/
def SepRel (trains : List Train) (config : RailwayConfig)
    (a b : TrainAssignment) : Prop :=
  a.trackId = b.trackId →
    a.actualArrival + assnDur trains a + config.safetyHeadway ≤ b.actualArrival

/-- Facts the greedy loop maintains for each emitted assignment, stated
against the current next-free vector `nf`. -/
def GoodAssn (trains : List Train) (config : RailwayConfig)
    (nf : List ℚ) (a : TrainAssignment) : Prop :=
  a.trackId < config.tracks ∧
  a.actualArrival + assnDur trains a + config.safetyHeadway ≤ nf.getD a.trackId 0 ∧
  ∃ t, trains.find? (fun u => u.id == a.trainId) = some t ∧
    t.scheduledArrival ≤ a.actualArrival ∧
    t.duration = some (assnDur trains a) ∧ 0 < assnDur trains a

/-- Loop invariant of the greedy fold. -/
def GreedyInv (trains : List Train) (config : RailwayConfig)
    (st : List ℚ × List TrainAssignment) : Prop :=
  st.1.length = config.tracks ∧
  (∀ a ∈ st.2, GoodAssn trains config st.1 a) ∧
  st.2.Pairwise (SepRel trains config)

theorem getD_set_self (l : List ℚ) (i : ℕ) (x : ℚ) (h : i < l.length) :
    (l.set i x).getD i 0 = x := by
  simp [List.getD_eq_getElem?_getD, List.getElem?_set_self h]

theorem getD_set_ne (l : List ℚ) (i j : ℕ) (x : ℚ) (h : i ≠ j) :
    (l.set i x).getD j 0 = l.getD j 0 := by
  simp [List.getD_eq_getElem?_getD, List.getElem?_set_ne h]

theorem greedy_inv24 (trains : List Train) (config : RailwayConfig)
    (hnd : (trains.map Train.id).Nodup)
    (hdur : ∀ t ∈ trains, ∃ d, t.duration = some d ∧ 0 < d)
    (hh : 0 ≤ config.safetyHeadway) (ht : 1 ≤ config.tracks) :
    GreedyInv trains config
      ((List.insertionSort (fun a b => trainLE a b = true) trains).foldl
        (schedStep config) (List.replicate config.tracks 0, [])) := by
  refine foldl_invariant _ (GreedyInv trains config) _ _
    ⟨by simp, fun a ha => absurd ha (List.not_mem_nil a), List.Pairwise.nil⟩ ?_
  intro st tr htr hst
  obtain ⟨hlen, hgood, hpw⟩ := hst
  have htr' : tr ∈ trains := (List.perm_insertionSort _ trains).mem_iff.mp htr
  obtain ⟨d0, hd0, hd0pos⟩ := hdur tr htr'
  have htru : truthyQ tr.duration = true := by
    rw [hd0]; simp [truthyQ, bne_iff_ne]; exact ne_of_gt hd0pos
  have hgetd : tr.duration.getD 0 = d0 := by rw [hd0]; rfl
  have hfind : trains.find? (fun u => u.id == tr.id) = some tr :=
    find?_eq_of_nodup trains tr htr' hnd
  unfold schedStep
  rw [htru]
  simp only [if_true]
  obtain ⟨hs1, hs2⟩ := chooseTrack_shape config tr.scheduledArrival
    (tr.duration.getD 0) st.1 ht
  set best := chooseTrack config tr.scheduledArrival (tr.duration.getD 0) st.1 with hbest
  set a' : TrainAssignment :=
    { trainId := tr.id, trackId := best.1, actualArrival := best.2,
      delay := max 0 (best.2 - tr.scheduledArrival) } with ha'
  have hdur' : assnDur trains a' = d0 := by
    unfold assnDur
    show (match trains.find? (fun u => u.id == tr.id) with
      | some t => t.duration.getD 0
      | none => 0) = d0
    rw [hfind]
    exact hgetd
  have hfree : st.1.getD best.1 0 ≤ best.2 := by rw [hs2]; exact le_max_right _ _
  have hdh : 0 ≤ tr.duration.getD 0 + config.safetyHeadway := by
    rw [hgetd]; exact add_nonneg (le_of_lt hd0pos) hh
  have hb1len : best.1 < st.1.length := by rw [hlen]; exact hs1
  refine ⟨by simp [hlen], ?_, ?_⟩
  · intro a ha
    rcases List.mem_append.mp ha with ha2 | ha2
    · obtain ⟨hg1, hg2, hg3⟩ := hgood a ha2
      refine ⟨hg1, ?_, hg3⟩
      by_cases hc : a.trackId = best.1
      · rw [hc, getD_set_self st.1 best.1 _ hb1len]
        calc a.actualArrival + assnDur trains a + config.safetyHeadway
            ≤ st.1.getD a.trackId 0 := hg2
          _ = st.1.getD best.1 0 := by rw [hc]
          _ ≤ best.2 := hfree
          _ ≤ best.2 + (tr.duration.getD 0 + config.safetyHeadway) := le_add_of_nonneg_right hdh
          _ = best.2 + tr.duration.getD 0 + config.safetyHeadway := by ring
      · rw [getD_set_ne st.1 best.1 a.trackId _ (fun hne => hc hne.symm)]
        exact hg2
    · rw [List.mem_singleton] at ha2
      subst ha2
      refine ⟨hs1, ?_, tr, hfind, ?_, ?_, ?_⟩
      · show best.2 + assnDur trains a' + config.safetyHeadway ≤
          (st.1.set best.1 (best.2 + tr.duration.getD 0 + config.safetyHeadway)).getD best.1 0
        rw [hdur', getD_set_self st.1 best.1 _ hb1len, hgetd]
      · show tr.scheduledArrival ≤ best.2
        rw [hs2]; exact le_max_left _ _
      · rw [hdur']; exact hd0
      · rw [hdur']; exact hd0pos
  · rw [List.pairwise_append]
    refine ⟨hpw, List.pairwise_singleton _ _, ?_⟩
    intro a ha2 b hb2
    rw [List.mem_singleton] at hb2
    subst hb2
    intro hc
    obtain ⟨hg1, hg2, hg3⟩ := hgood a ha2
    calc a.actualArrival + assnDur trains a + config.safetyHeadway
        ≤ st.1.getD a.trackId 0 := hg2
      _ = st.1.getD best.1 0 := by rw [hc]
      _ ≤ best.2 := hfree

/-! ### Local improver lemmas -/

theorem computeScheduleMetrics_assignments (assignments : List TrainAssignment)
    (trains : List Train) (config : RailwayConfig) :
    (computeScheduleMetrics assignments trains config).assignments = assignments := rfl

/-- Per-assignment facts preserved by the whole pipeline: in-range
track, nonnegative delay, and consistency of `actualArrival`/`delay`
with some input train of the assignment's id. -/
def AssnOK (trains : List Train) (config : RailwayConfig)
    (a : TrainAssignment) : Prop :=
  a.trackId < config.tracks ∧ 0 ≤ a.delay ∧
  ∃ t ∈ trains, t.id = a.trainId ∧ t.scheduledArrival ≤ a.actualArrival ∧
    a.delay = max 0 (a.actualArrival - t.scheduledArrival)

theorem trySwapTrains_map_trainId (assignments : List TrainAssignment)
    (a1 a2 : TrainAssignment) (trains : List Train) (config : RailwayConfig)
    (B : List TrainAssignment)
    (h : trySwapTrains assignments a1 a2 trains config = some B) :
    B.map TrainAssignment.trainId = assignments.map TrainAssignment.trainId := by
  unfold trySwapTrains at h
  cases h1 : trains.find? (fun t => t.id == a1.trainId) with
  | none => rw [h1] at h; cases h
  | some t1 =>
    cases h2 : trains.find? (fun t => t.id == a2.trainId) with
    | none => rw [h1, h2] at h; cases h
    | some t2 =>
      rw [h1, h2] at h
      simp only at h
      split at h
      · split at h
        · cases h
        · have hB := Option.some.inj h
          rw [← hB, List.map_map]
          apply List.map_congr_left
          intro a _
          simp only [Function.comp_apply]
          by_cases hc1 : a.trainId = a1.trainId
          · rw [if_pos hc1]
          · rw [if_neg hc1]
            by_cases hc2 : a.trainId = a2.trainId
            · rw [if_pos hc2]
            · rw [if_neg hc2]
      · cases h

theorem trySwapTrains_pointwise (assignments : List TrainAssignment)
    (a1 a2 : TrainAssignment) (trains : List Train) (config : RailwayConfig)
    (B : List TrainAssignment)
    (h : trySwapTrains assignments a1 a2 trains config = some B)
    (hA : ∀ a ∈ assignments, AssnOK trains config a) :
    ∀ b ∈ B, AssnOK trains config b := by
  unfold trySwapTrains at h
  cases h1 : trains.find? (fun t => t.id == a1.trainId) with
  | none => rw [h1] at h; cases h
  | some t1 =>
    cases h2 : trains.find? (fun t => t.id == a2.trainId) with
    | none => rw [h1, h2] at h; cases h
    | some t2 =>
      rw [h1, h2] at h
      simp only at h
      split at h
      case isFalse => cases h
      split at h
      case isTrue => cases h
      have hB := Option.some.inj h
      intro b hb
      rw [← hB] at hb
      obtain ⟨a, ha, hab⟩ := List.mem_map.mp hb
      have ht1m : t1 ∈ trains := List.mem_of_find?_eq_some h1
      have ht2m : t2 ∈ trains := List.mem_of_find?_eq_some h2
      have ht1id : t1.id = a1.trainId := by
        have := List.find?_some h1
        exact eq_of_beq this
      have ht2id : t2.id = a2.trainId := by
        have := List.find?_some h2
        exact eq_of_beq this
      obtain ⟨hk1, hk2, hk3⟩ := hA a ha
      by_cases hc1 : a.trainId = a1.trainId
      · rw [← hab, if_pos hc1]
        refine ⟨hk1, le_max_left 0 _, t1, ht1m, ?_, le_max_left _ _, rfl⟩
        show t1.id = a.trainId
        rw [ht1id, hc1]
      · by_cases hc2 : a.trainId = a2.trainId
        · rw [← hab, if_neg hc1, if_pos hc2]
          refine ⟨hk1, le_max_left 0 _, t2, ht2m, ?_, le_max_left _ _, rfl⟩
          show t2.id = a.trainId
          rw [ht2id, hc2]
        · rw [← hab, if_neg hc1, if_neg hc2]
          exact ⟨hk1, hk2, hk3⟩

/-- Any property of the improver state preserved by clearing the
`improved` flag and by every pair step holds after `runPasses`. -/
theorem runPasses_invariant (trains : List Train) (config : RailwayConfig)
    (P : ImproveState → Prop)
    (hflag : ∀ st, P st → P { st with improved := false })
    (hpair : ∀ a1 a2 st, P st → P (stepPair trains config a1 a2 st)) :
    ∀ fuel st, P st → P (runPasses trains config fuel st) := by
  intro fuel
  induction fuel with
  | zero => intro st h; exact h
  | succ n ih =>
    intro st h
    rw [runPasses]
    split
    · apply ih
      refine foldl_invariant _ P _ _ (hflag st h) ?_
      intro c k _ hc
      unfold stepTrack
      refine foldl_invariant _ P _ _ hc ?_
      intro c2 i _ hc2
      cases hga : (List.insertionSort (fun a b => arrivalLE a b = true)
          (c.assignments.filter (fun a => a.trackId == k))).get? i with
      | none => simp only [hga]; exact hc2
      | some a1 =>
        cases hgb : (List.insertionSort (fun a b => arrivalLE a b = true)
            (c.assignments.filter (fun a => a.trackId == k))).get? (i + 1) with
        | none => simp only [hga, hgb]; exact hc2
        | some a2 =>
          simp only [hga, hgb]
          exact hpair a1 a2 c2 hc2
    · exact h

theorem stepPair_wd_le (trains : List Train) (config : RailwayConfig)
    (a1 a2 : TrainAssignment) (st : ImproveState) :
    (stepPair trains config a1 a2 st).schedule.weightedDelay ≤
      st.schedule.weightedDelay := by
  unfold stepPair
  cases h1 : trains.find? (fun t => t.id == a1.trainId) with
  | none => exact le_refl _
  | some t1 =>
    cases h2 : trains.find? (fun t => t.id == a2.trainId) with
    | none => exact le_refl _
    | some t2 =>
      dsimp only
      split
      · split
        · split
          · rename_i hlt
            exact le_of_lt hlt
          · exact le_refl _
        · exact le_refl _
      · exact le_refl _

theorem foldl_wd_le {α : Type _} (f : ImproveState → α → ImproveState)
    (h : ∀ st a, (f st a).schedule.weightedDelay ≤ st.schedule.weightedDelay) :
    ∀ (l : List α) (st : ImproveState),
      ((l.foldl f st).schedule.weightedDelay ≤ st.schedule.weightedDelay) := by
  intro l
  induction l with
  | nil => intro st; exact le_refl _
  | cons x xs ih =>
    intro st
    exact le_trans (ih (f st x)) (h st x)

theorem stepTrack_wd_le (trains : List Train) (config : RailwayConfig)
    (st : ImproveState) (k : ℕ) :
    (stepTrack trains config st k).schedule.weightedDelay ≤
      st.schedule.weightedDelay := by
  unfold stepTrack
  apply foldl_wd_le
  intro c i
  cases hga : (List.insertionSort (fun a b => arrivalLE a b = true)
      (st.assignments.filter (fun a => a.trackId == k))).get? i with
  | none => simp only [hga]; exact le_refl _
  | some a1 =>
    cases hgb : (List.insertionSort (fun a b => arrivalLE a b = true)
        (st.assignments.filter (fun a => a.trackId == k))).get? (i + 1) with
    | none => simp only [hga, hgb]; exact le_refl _
    | some a2 =>
      simp only [hga, hgb]
      exact stepPair_wd_le trains config a1 a2 c

theorem runPasses_wd_le (trains : List Train) (config : RailwayConfig) :
    ∀ (fuel : ℕ) (st : ImproveState),
      (runPasses trains config fuel st).schedule.weightedDelay ≤
        st.schedule.weightedDelay := by
  intro fuel
  induction fuel with
  | zero => intro st; exact le_refl _
  | succ n ih =>
    intro st
    rw [runPasses]
    split
    · exact le_trans (ih _)
        (foldl_wd_le _ (fun c k => stepTrack_wd_le trains config c k) _ _)
    · exact le_refl _

/-! ### No-swap fixpoint lemmas -/

/-- The per-assignment facts that make every swap attempt infeasible:
each assignment's looked-up train has a positive duration and has not
been placed before its scheduled arrival. -/
def SwapSafe (trains : List Train) (l : List TrainAssignment) : Prop :=
  ∀ a ∈ l, ∃ t, trains.find? (fun u => u.id == a.trainId) = some t ∧
    t.scheduledArrival ≤ a.actualArrival ∧ ∃ d, t.duration = some d ∧ 0 < d

theorem stepPair_fixed (trains : List Train) (config : RailwayConfig)
    (hh : 0 ≤ config.safetyHeadway)
    (a1 a2 : TrainAssignment) (st : ImproveState)
    (hS : SwapSafe trains st.assignments)
    (h1 : a1 ∈ st.assignments) (h2 : a2 ∈ st.assignments)
    (hle : a1.actualArrival ≤ a2.actualArrival) :
    stepPair trains config a1 a2 st = st := by
  obtain ⟨t1, hf1, hs1, d1, hd1, hd1pos⟩ := hS a1 h1
  obtain ⟨t2, hf2, hs2, d2, hd2, hd2pos⟩ := hS a2 h2
  have ht1 : truthyQ t1.duration = true := by
    rw [hd1]; simp [truthyQ, bne_iff_ne]; exact ne_of_gt hd1pos
  have ht2 : truthyQ t2.duration = true := by
    rw [hd2]; simp [truthyQ, bne_iff_ne]; exact ne_of_gt hd2pos
  have hswap : trySwapTrains st.assignments a1 a2 trains config = none := by
    unfold trySwapTrains
    rw [hf1, hf2]
    dsimp only
    have hcond : max t1.scheduledArrival a2.actualArrival + t1.duration.getD 0 +
        config.safetyHeadway > max t2.scheduledArrival a1.actualArrival ∨
        max t2.scheduledArrival a1.actualArrival + t2.duration.getD 0 >
          config.timeHorizon := by
      left
      have hA : max t2.scheduledArrival a1.actualArrival ≤ a2.actualArrival :=
        max_le hs2 hle
      have hB : a2.actualArrival ≤ max t1.scheduledArrival a2.actualArrival :=
        le_max_right _ _
      have hC : max t1.scheduledArrival a2.actualArrival <
          max t1.scheduledArrival a2.actualArrival + (t1.duration.getD 0 +
            config.safetyHeadway) := by
        apply lt_add_of_pos_right
        apply add_pos_of_pos_of_nonneg _ hh
        rw [hd1]
        exact hd1pos
      calc max t2.scheduledArrival a1.actualArrival
          ≤ max t1.scheduledArrival a2.actualArrival := le_trans hA hB
        _ < max t1.scheduledArrival a2.actualArrival +
            (t1.duration.getD 0 + config.safetyHeadway) := hC
        _ = max t1.scheduledArrival a2.actualArrival + t1.duration.getD 0 +
            config.safetyHeadway := by ring
    rw [if_pos (⟨ht1, ht2⟩ : truthyQ t1.duration = true ∧ truthyQ t2.duration = true)]
    rw [if_pos hcond]
  unfold stepPair
  rw [hf1, hf2]
  dsimp only
  split
  · rw [hswap]
  · rfl

theorem stepTrack_fixed (trains : List Train) (config : RailwayConfig)
    (hh : 0 ≤ config.safetyHeadway) (st : ImproveState) (k : ℕ)
    (hS : SwapSafe trains st.assignments) :
    stepTrack trains config st k = st := by
  unfold stepTrack
  apply foldl_fixed
  intro i _
  have hsorted : (List.insertionSort (fun a b => arrivalLE a b = true)
      (st.assignments.filter (fun a => a.trackId == k))).Pairwise
        (fun a b => arrivalLE a b = true) := by
    haveI : IsTotal TrainAssignment (fun a b => arrivalLE a b = true) :=
      ⟨arrivalLE_total⟩
    haveI : IsTrans TrainAssignment (fun a b => arrivalLE a b = true) :=
      ⟨arrivalLE_trans⟩
    exact List.sorted_insertionSort _ _
  cases hga : (List.insertionSort (fun a b => arrivalLE a b = true)
      (st.assignments.filter (fun a => a.trackId == k))).get? i with
  | none =>
    cases hgb : (List.insertionSort (fun a b => arrivalLE a b = true)
        (st.assignments.filter (fun a => a.trackId == k))).get? (i + 1) with
    | none => simp only [hga, hgb]
    | some a2 => simp only [hga, hgb]
  | some a1 =>
    cases hgb : (List.insertionSort (fun a b => arrivalLE a b = true)
        (st.assignments.filter (fun a => a.trackId == k))).get? (i + 1) with
    | none => simp only [hga, hgb]
    | some a2 =>
      simp only [hga, hgb]
      have hmem1 : a1 ∈ st.assignments := by
        have := List.get?_mem hga
        have := (List.perm_insertionSort _ _).mem_iff.mp this
        exact (List.mem_filter.mp this).1
      have hmem2 : a2 ∈ st.assignments := by
        have := List.get?_mem hgb
        have := (List.perm_insertionSort _ _).mem_iff.mp this
        exact (List.mem_filter.mp this).1
      obtain ⟨hi1, hg1⟩ := List.get?_eq_some.mp hga
      obtain ⟨hi2, hg2⟩ := List.get?_eq_some.mp hgb
      have hrel := List.pairwise_iff_get.mp hsorted ⟨i, hi1⟩ ⟨i + 1, hi2⟩
        (Nat.lt_succ_self i)
      rw [hg1, hg2] at hrel
      unfold arrivalLE at hrel
      simp only [decide_eq_true_eq] at hrel
      exact stepPair_fixed trains config hh a1 a2 st hS hmem1 hmem2 hrel

theorem applyLocalImprovements_fixed (schedule : Schedule)
    (trains : List Train) (config : RailwayConfig)
    (hh : 0 ≤ config.safetyHeadway)
    (hS : SwapSafe trains schedule.assignments) :
    applyLocalImprovements schedule trains config = schedule := by
  unfold applyLocalImprovements
  have h1 : (List.range config.tracks).foldl (stepTrack trains config)
      { assignments := schedule.assignments, schedule := schedule,
        improved := false } =
      { assignments := schedule.assignments, schedule := schedule,
        improved := false } :=
    foldl_fixed _ _ _ (fun k _ => stepTrack_fixed trains config hh _ k hS)
  have e1 : runPasses trains config 10
      { assignments := schedule.assignments, schedule := schedule,
        improved := true } =
      runPasses trains config 9
        { assignments := schedule.assignments, schedule := schedule,
          improved := false } := by
    rw [runPasses]
    rw [if_pos rfl]
    rw [h1]
  have e2 : runPasses trains config 9
      { assignments := schedule.assignments, schedule := schedule,
        improved := false } =
      { assignments := schedule.assignments, schedule := schedule,
        improved := false } := by
    rw [runPasses]
    rfl
  rw [e1, e2]

/-- Under the data-model invariants (unique ids, positive durations,
nonnegative headway, at least one track) the local improver accepts no
swap, so the optimized schedule IS the greedy schedule. -/
theorem optimizedSchedule_eq_greedy (trains : List Train) (config : RailwayConfig)
    (hnd : (trains.map Train.id).Nodup)
    (hdur : ∀ t ∈ trains, ∃ d, t.duration = some d ∧ 0 < d)
    (hh : 0 ≤ config.safetyHeadway) (ht : 1 ≤ config.tracks) :
    optimizedSchedule trains config = greedySchedule trains config := by
  have hinv := greedy_inv24 trains config hnd hdur hh ht
  have hS : SwapSafe trains (greedySchedule trains config).assignments := by
    rw [greedySchedule_assignments]
    intro a ha
    obtain ⟨_, _, t, hf, hs, hd, hdp⟩ := hinv.2.1 a ha
    exact ⟨t, hf, hs, assnDur trains a, hd, hdp⟩
  unfold optimizedSchedule
  exact applyLocalImprovements_fixed _ trains config hh hS

/-! ### Metrics characterization -/

/-- An assignment contributes to the metrics exactly when its train is
found and has a truthy duration (the `!train?.duration` guard). -/
def keepAssn (trains : List Train) (a : TrainAssignment) : Bool :=
  truthyQ ((trains.find? (fun t => t.id == a.trainId)).bind Train.duration)

theorem assnDur_eq (trains : List Train) (a : TrainAssignment) (t : Train)
    (hf : trains.find? (fun u => u.id == a.trainId) = some t) :
    assnDur trains a = t.duration.getD 0 := by
  unfold assnDur
  rw [hf]

theorem assnWeight_eq (trains : List Train) (a : TrainAssignment) (t : Train)
    (hf : trains.find? (fun u => u.id == a.trainId) = some t) :
    assnWeight trains a = PRIORITY_WEIGHTS t.priority := by
  unfold assnWeight
  rw [hf]

theorem keepAssn_none (trains : List Train) (a : TrainAssignment)
    (hf : trains.find? (fun u => u.id == a.trainId) = none) :
    keepAssn trains a = false := by
  unfold keepAssn
  rw [hf]
  rfl

theorem keepAssn_some (trains : List Train) (a : TrainAssignment) (t : Train)
    (hf : trains.find? (fun u => u.id == a.trainId) = some t) :
    keepAssn trains a = truthyQ t.duration := by
  unfold keepAssn
  rw [hf]
  rfl

theorem metrics_fold_char (trains : List Train) (config : RailwayConfig) :
    ∀ (l : List TrainAssignment) (acc : MetricsAcc),
      acc.utilization.length = config.tracks →
      ((l.foldl (metricsStep trains config) acc).totalDelay =
          acc.totalDelay +
            ((l.filter (keepAssn trains)).map TrainAssignment.delay).sum) ∧
      ((l.foldl (metricsStep trains config) acc).weightedDelay =
          acc.weightedDelay + ((l.filter (keepAssn trains)).map
            (fun a => a.delay * assnWeight trains a)).sum) ∧
      ((l.foldl (metricsStep trains config) acc).finished =
          acc.finished + (l.filter (keepAssn trains)).countP
            (fun a => a.actualArrival + assnDur trains a ≤ config.timeHorizon)) ∧
      ((l.foldl (metricsStep trains config) acc).utilization.length =
          config.tracks) ∧
      (∀ k, k < config.tracks →
        (l.foldl (metricsStep trains config) acc).utilization.getD k 0 =
          acc.utilization.getD k 0 +
            (((l.filter (keepAssn trains)).filter (fun a => a.trackId == k)).map
              (fun a => assnDur trains a)).sum) := by
  intro l
  induction l with
  | nil =>
    intro acc hlen
    refine ⟨by simp, by simp, by simp, hlen, fun k _ => by simp⟩
  | cons a l ih =>
    intro acc hlen
    rw [List.foldl_cons]
    cases hf : trains.find? (fun u => u.id == a.trainId) with
    | none =>
      have hstep : metricsStep trains config acc a = acc := by
        unfold metricsStep
        rw [hf]
      have hkeep : keepAssn trains a = false := keepAssn_none trains a hf
      rw [hstep]
      obtain ⟨ih1, ih2, ih3, ih4, ih5⟩ := ih acc hlen
      rw [List.filter_cons_of_neg (by simp [hkeep])]
      exact ⟨ih1, ih2, ih3, ih4, ih5⟩
    | some t =>
      cases htd : truthyQ t.duration with
      | false =>
        have hstep : metricsStep trains config acc a = acc := by
          unfold metricsStep
          rw [hf]
          dsimp only
          rw [htd]
          rfl
        have hkeep : keepAssn trains a = false := by
          rw [keepAssn_some trains a t hf, htd]
        rw [hstep]
        obtain ⟨ih1, ih2, ih3, ih4, ih5⟩ := ih acc hlen
        rw [List.filter_cons_of_neg (by simp [hkeep])]
        exact ⟨ih1, ih2, ih3, ih4, ih5⟩
      | true =>
        have hkeep : keepAssn trains a = true := by
          rw [keepAssn_some trains a t hf, htd]
        have hdur := assnDur_eq trains a t hf
        have hwt := assnWeight_eq trains a t hf
        have hTD : (metricsStep trains config acc a).totalDelay =
            acc.totalDelay + a.delay := by
          unfold metricsStep
          rw [hf]
          dsimp only
          rw [htd]
          rfl
        have hWD : (metricsStep trains config acc a).weightedDelay =
            acc.weightedDelay + a.delay * PRIORITY_WEIGHTS t.priority := by
          unfold metricsStep
          rw [hf]
          dsimp only
          rw [htd]
          rfl
        have hFIN : (metricsStep trains config acc a).finished =
            if a.actualArrival + t.duration.getD 0 ≤ config.timeHorizon then
              acc.finished + 1
            else acc.finished := by
          unfold metricsStep
          rw [hf]
          dsimp only
          rw [htd]
          rfl
        have hUT : (metricsStep trains config acc a).utilization =
            acc.utilization.set a.trackId
              (acc.utilization.getD a.trackId 0 + t.duration.getD 0) := by
          unfold metricsStep
          rw [hf]
          dsimp only
          rw [htd]
          rfl
        have hlen2 : (metricsStep trains config acc a).utilization.length =
            config.tracks := by
          rw [hUT, List.length_set]
          exact hlen
        obtain ⟨ih1, ih2, ih3, ih4, ih5⟩ := ih (metricsStep trains config acc a) hlen2
        rw [List.filter_cons_of_pos (by rw [hkeep])]
        refine ⟨?_, ?_, ?_, ih4, ?_⟩
        · rw [ih1, hTD, List.map_cons, List.sum_cons]
          ring
        · rw [ih2, hWD, List.map_cons, List.sum_cons, hwt]
          ring
        · rw [ih3, hFIN]
          by_cases hor : a.actualArrival + t.duration.getD 0 ≤ config.timeHorizon
          · rw [if_pos hor, List.countP_cons_of_pos _ _
              (by rw [hdur]; exact decide_eq_true hor)]
            omega
          · rw [if_neg hor, List.countP_cons_of_neg _ _
              (by rw [hdur]; simp only [decide_eq_true_eq]; exact hor)]
        · intro k hk
          rw [ih5 k hk, hUT]
          by_cases hc : a.trackId = k
          · have hkl : a.trackId < acc.utilization.length := by
              rw [hlen, hc]
              exact hk
            rw [hc] at hkl
            rw [hc, getD_set_self _ _ _ hkl]
            rw [List.filter_cons_of_pos (by simp [hc])]
            rw [List.map_cons, List.sum_cons, hdur]
            ring
          · rw [getD_set_ne _ _ _ _ hc]
            rw [List.filter_cons_of_neg (by simp [hc])]

/-! ### Improver preservation corollaries -/

theorem optimized_assignments_map_trainId (trains : List Train)
    (config : RailwayConfig) :
    (optimizedSchedule trains config).assignments.map TrainAssignment.trainId =
      (greedySchedule trains config).assignments.map TrainAssignment.trainId := by
  unfold optimizedSchedule applyLocalImprovements
  have h := runPasses_invariant trains config
    (fun st => st.schedule.assignments = st.assignments ∧
      st.assignments.map TrainAssignment.trainId =
        (greedySchedule trains config).assignments.map TrainAssignment.trainId)
    (fun st hst => hst)
    (fun a1 a2 st hst => by
      unfold stepPair
      cases h1 : trains.find? (fun t => t.id == a1.trainId) with
      | none => exact hst
      | some t1 =>
        cases h2 : trains.find? (fun t => t.id == a2.trainId) with
        | none => exact hst
        | some t2 =>
          dsimp only
          split
          · cases hsw : trySwapTrains st.assignments a1 a2 trains config with
            | none => exact hst
            | some newA =>
              dsimp only
              split
              · refine ⟨computeScheduleMetrics_assignments newA trains config, ?_⟩
                rw [trySwapTrains_map_trainId st.assignments a1 a2 trains config
                  newA hsw]
                exact hst.2
              · exact hst
          · exact hst)
    10
    { assignments := (greedySchedule trains config).assignments,
      schedule := greedySchedule trains config, improved := true }
    ⟨rfl, rfl⟩
  rw [h.1]
  exact h.2

theorem optimized_inv6 (trains : List Train) (config : RailwayConfig)
    (ht : 1 ≤ config.tracks) :
    ∀ a ∈ (optimizedSchedule trains config).assignments,
      AssnOK trains config a := by
  unfold optimizedSchedule applyLocalImprovements
  have h := runPasses_invariant trains config
    (fun st => st.schedule.assignments = st.assignments ∧
      ∀ a ∈ st.assignments, AssnOK trains config a)
    (fun st hst => hst)
    (fun a1 a2 st hst => by
      unfold stepPair
      cases h1 : trains.find? (fun t => t.id == a1.trainId) with
      | none => exact hst
      | some t1 =>
        cases h2 : trains.find? (fun t => t.id == a2.trainId) with
        | none => exact hst
        | some t2 =>
          dsimp only
          split
          · cases hsw : trySwapTrains st.assignments a1 a2 trains config with
            | none => exact hst
            | some newA =>
              dsimp only
              split
              · exact ⟨computeScheduleMetrics_assignments newA trains config,
                  trySwapTrains_pointwise st.assignments a1 a2 trains config
                    newA hsw hst.2⟩
              · exact hst
          · exact hst)
    10
    { assignments := (greedySchedule trains config).assignments,
      schedule := greedySchedule trains config, improved := true }
    ⟨rfl, greedy_inv6 trains config ht⟩
  rw [h.1]
  exact h.2

/-! ### Disruption lemmas -/

theorem applyDisruption_delay (trains : List Train) (d : Disruption) (dm : ℚ)
    (htype : d.type = DisruptionType.delay) (hdm : d.delayMinutes = some dm) :
    applyDisruption trains d = trains.map (fun t =>
      if d.trainId = some t.id then
        { t with scheduledArrival := t.scheduledArrival + dm }
      else t) := by
  unfold applyDisruption
  apply List.map_congr_left
  intro t _
  by_cases hid : d.trainId = some t.id
  · by_cases hzero : dm = 0
    · rw [if_neg, if_pos hid]
      · cases t
        simp [hzero]
      · intro hcond
        have := hcond.2.2
        rw [hdm, hzero] at this
        simp [truthyQ] at this
    · rw [if_pos ⟨htype, hid, by rw [hdm]; simp [truthyQ, bne_iff_ne]; exact hzero⟩,
        if_pos hid, hdm]
      rfl
  · rw [if_neg (fun hcond => hid hcond.2.1), if_neg hid]

theorem applyDisruption_block (trains : List Train) (d : Disruption)
    (htype : d.type = DisruptionType.block_track) :
    applyDisruption trains d = trains := by
  unfold applyDisruption
  have : ∀ t ∈ trains, (if d.type = DisruptionType.delay ∧
      d.trainId = some t.id ∧ truthyQ d.delayMinutes then
        { t with scheduledArrival := t.scheduledArrival + d.delayMinutes.getD 0 }
      else t) = t := by
    intro t _
    rw [if_neg]
    intro hcond
    rw [htype] at hcond
    cases hcond.1
  rw [List.map_congr_left this]
  simp

theorem rescheduleWithDisruption_block (trains : List Train)
    (config : RailwayConfig) (d : Disruption) (k : ℕ)
    (htype : d.type = DisruptionType.block_track) (htrk : d.trackId = some k) :
    rescheduleWithDisruption trains config d =
      (optimizedSchedule (prepareTrainsData trains config) config,
       optimizedSchedule (prepareTrainsData trains config)
         { config with tracks := config.tracks - 1 }) := by
  unfold rescheduleWithDisruption
  rw [applyDisruption_block trains d htype]
  rw [if_pos ⟨htype, by rw [htrk]; simp⟩]

/-! ### Concrete inputs for examples and witnesses -/

def trainA : Train :=
  { id := "A", scheduledArrival := 0, speed := 60, priority := Priority.high,
    length := 200, duration := some 10 }

def trainB : Train :=
  { id := "B", scheduledArrival := 5, speed := 40, priority := Priority.medium,
    length := 300, duration := some 10 }

def negTrain : Train :=
  { id := "N", scheduledArrival := 0, speed := -60, priority := Priority.low,
    length := 100 }

def cfg1 : RailwayConfig :=
  { sectionLength := 5, timeHorizon := 180, tracks := 1,
    maxTrainsPerTrack := 10, safetyHeadway := 3 }

def cfg3 : RailwayConfig :=
  { sectionLength := 5, timeHorizon := 180, tracks := 3,
    maxTrainsPerTrack := 10, safetyHeadway := 3 }

def delayDisr : Disruption :=
  { type := DisruptionType.delay, trainId := some "B", delayMinutes := some 12 }

def blockDisr : Disruption :=
  { type := DisruptionType.block_track, trackId := some 1 }

/-! ### Claim theorems -/

/-- C1: in `greedySchedule`, for every duration-truthy train the chosen
track (the result of the scan `chooseTrack`) is, among tracks whose
candidate start `max(scheduledArrival, nextFree)` plus the duration is
at most the horizon, the one with smallest candidate start, ties broken
by lowest index; if no track is feasible the result is track 0 at track
0's candidate start; and every duration-truthy train receives exactly
one assignment (assignment ids are a permutation of the duration-truthy
train ids). -/
theorem C1_greedy_track_choice (config : RailwayConfig) (s d : ℚ)
    (nf : List ℚ) (trains : List Train) (ht : 1 ≤ config.tracks) :
    ((∃ j, j < config.tracks ∧
        max s (nf.getD j 0) + d ≤ config.timeHorizon) →
      (chooseTrack config s d nf).1 < config.tracks ∧
      max s (nf.getD (chooseTrack config s d nf).1 0) + d ≤
        config.timeHorizon ∧
      (chooseTrack config s d nf).2 =
        max s (nf.getD (chooseTrack config s d nf).1 0) ∧
      ∀ j, j < config.tracks →
        max s (nf.getD j 0) + d ≤ config.timeHorizon →
        max s (nf.getD (chooseTrack config s d nf).1 0) ≤
            max s (nf.getD j 0) ∧
          (max s (nf.getD j 0) =
              max s (nf.getD (chooseTrack config s d nf).1 0) →
            (chooseTrack config s d nf).1 ≤ j)) ∧
    ((∀ j, j < config.tracks →
        ¬(max s (nf.getD j 0) + d ≤ config.timeHorizon)) →
      chooseTrack config s d nf = (0, max s (nf.getD 0 0))) ∧
    ((greedySchedule trains config).assignments.map
        TrainAssignment.trainId).Perm
      ((trains.filter (fun t => truthyQ t.duration)).map Train.id) := by
  obtain ⟨inv1, inv2, inv3⟩ := chooseScan_invariant config s d nf config.tracks
  have hct : chooseTrack config s d nf =
      (List.range config.tracks).foldl (chooseStep config s d nf)
        (0, max s (nf.getD 0 0)) := rfl
  refine ⟨?_, ?_, greedy_map_trainId trains config⟩
  · rintro ⟨j, hj, hfj⟩
    rw [hct]
    rcases inv3 with heq | ⟨h1, h2, h3, h4, h5⟩
    · rw [heq]
      have hc0 : max s (nf.getD 0 0) + d ≤ config.timeHorizon := by
        have hle := inv1 j hj hfj
        rw [heq] at hle
        calc max s (nf.getD 0 0) + d ≤ max s (nf.getD j 0) + d := by
              exact add_le_add_right hle d
          _ ≤ config.timeHorizon := hfj
      refine ⟨ht, hc0, rfl, ?_⟩
      intro j2 hj2 hfj2
      have hle2 := inv1 j2 hj2 hfj2
      rw [heq] at hle2
      exact ⟨hle2, fun _ => Nat.zero_le j2⟩
    · refine ⟨h1, h2, h3, ?_⟩
      intro j2 hj2 hfj2
      have hle2 := inv1 j2 hj2 hfj2
      constructor
      · rw [← h3]
        exact hle2
      · intro htie
        by_contra hgt
        push_neg at hgt
        have := h5 j2 hgt hfj2
        rw [htie, ← h3] at this
        exact lt_irrefl _ this
  · intro hnone
    rw [hct]
    rcases inv3 with heq | ⟨h1, h2, _, _, _⟩
    · exact heq
    · exact absurd h2 (hnone _ h1)

/-- C1 witness: two tracks, both free, a feasible duration. -/
theorem C1_greedy_track_choice_witness :
    1 ≤ cfg3.tracks ∧
    (((∃ j, j < cfg3.tracks ∧
        max 0 (List.getD [(0 : ℚ), 0, 0] j 0) + 10 ≤ cfg3.timeHorizon) →
      (chooseTrack cfg3 0 10 [(0 : ℚ), 0, 0]).1 < cfg3.tracks ∧
      max 0 (List.getD [(0 : ℚ), 0, 0]
          (chooseTrack cfg3 0 10 [(0 : ℚ), 0, 0]).1 0) + 10 ≤
        cfg3.timeHorizon ∧
      (chooseTrack cfg3 0 10 [(0 : ℚ), 0, 0]).2 =
        max 0 (List.getD [(0 : ℚ), 0, 0]
          (chooseTrack cfg3 0 10 [(0 : ℚ), 0, 0]).1 0) ∧
      ∀ j, j < cfg3.tracks →
        max 0 (List.getD [(0 : ℚ), 0, 0] j 0) + 10 ≤ cfg3.timeHorizon →
        max 0 (List.getD [(0 : ℚ), 0, 0]
            (chooseTrack cfg3 0 10 [(0 : ℚ), 0, 0]).1 0) ≤
            max 0 (List.getD [(0 : ℚ), 0, 0] j 0) ∧
          (max 0 (List.getD [(0 : ℚ), 0, 0] j 0) =
              max 0 (List.getD [(0 : ℚ), 0, 0]
                (chooseTrack cfg3 0 10 [(0 : ℚ), 0, 0]).1 0) →
            (chooseTrack cfg3 0 10 [(0 : ℚ), 0, 0]).1 ≤ j)) ∧
    ((∀ j, j < cfg3.tracks →
        ¬(max 0 (List.getD [(0 : ℚ), 0, 0] j 0) + 10 ≤ cfg3.timeHorizon)) →
      chooseTrack cfg3 0 10 [(0 : ℚ), 0, 0] =
        (0, max 0 (List.getD [(0 : ℚ), 0, 0] 0 0))) ∧
    (((greedySchedule [trainA, trainB] cfg3).assignments.map
        TrainAssignment.trainId).Perm
      (([trainA, trainB].filter (fun t => truthyQ t.duration)).map
        Train.id))) :=
  ⟨by decide,
   C1_greedy_track_choice cfg3 0 10 [(0 : ℚ), 0, 0] [trainA, trainB]
     (by decide)⟩

/-- C2: with unique train ids (the data model invariant), strictly
positive durations, nonnegative headway and at least one track, the
swap feasibility test can never succeed, so `optimizedSchedule` returns
exactly the greedy schedule. -/
theorem C2_optimized_equals_greedy (trains : List Train)
    (config : RailwayConfig)
    (hnd : (trains.map Train.id).Nodup)
    (hdur : ∀ t ∈ trains, ∃ d, t.duration = some d ∧ 0 < d)
    (hh : 0 ≤ config.safetyHeadway) (ht : 1 ≤ config.tracks) :
    optimizedSchedule trains config = greedySchedule trains config :=
  optimizedSchedule_eq_greedy trains config hnd hdur hh ht

theorem C2_optimized_equals_greedy_witness :
    ([trainA, trainB].map Train.id).Nodup ∧
    (∀ t ∈ [trainA, trainB], ∃ d, t.duration = some d ∧ 0 < d) ∧
    0 ≤ cfg1.safetyHeadway ∧ 1 ≤ cfg1.tracks ∧
    optimizedSchedule [trainA, trainB] cfg1 =
      greedySchedule [trainA, trainB] cfg1 := by
  have hdur : ∀ t ∈ [trainA, trainB], ∃ d, t.duration = some d ∧ 0 < d := by
    intro t htm
    rcases List.mem_cons.mp htm with h | h
    · subst h; exact ⟨10, rfl, by norm_num⟩
    · rcases List.mem_cons.mp h with h2 | h2
      · subst h2; exact ⟨10, rfl, by norm_num⟩
      · cases h2
  refine ⟨by decide, hdur, by with_unfolding_all decide, by decide, ?_⟩
  exact C2_optimized_equals_greedy [trainA, trainB] cfg1 (by decide) hdur
    (by with_unfolding_all decide) (by decide)

/-- C3 counterexample: a train with negative speed gets the truthy
duration −5 from `prepareTrainsData`, and `greedySchedule` both emits an
assignment for it and adds its duration to track 0's utilization — it is
not excluded from the outputs. -/
theorem C3_counterexample :
    (greedySchedule (prepareTrainsData [negTrain] cfg1) cfg1).assignments =
      [{ trainId := "N", trackId := 0, actualArrival := 0, delay := 0 }] ∧
    (greedySchedule (prepareTrainsData [negTrain] cfg1) cfg1).utilization =
      [(-5 : ℚ)] :=
  ⟨by with_unfolding_all rfl, by with_unfolding_all rfl⟩

/-- C3 amended: exclusion happens exactly for falsy (undefined or zero)
durations: both pipelines emit assignment ids that are a permutation of
the duration-truthy train ids, and a train all of whose id's trains have
falsy durations gets no assignment.  (A negative speed yields a negative,
truthy duration, and speed 0 yields JS Infinity, also truthy, so such
trains are NOT excluded.) -/
theorem C3_falsy_duration_exclusion (trains : List Train)
    (config : RailwayConfig) :
    (((greedySchedule trains config).assignments.map
        TrainAssignment.trainId).Perm
      ((trains.filter (fun t => truthyQ t.duration)).map Train.id)) ∧
    (((optimizedSchedule trains config).assignments.map
        TrainAssignment.trainId).Perm
      ((trains.filter (fun t => truthyQ t.duration)).map Train.id)) ∧
    (∀ t ∈ trains, truthyQ t.duration = false →
      (∀ t2 ∈ trains, t2.id = t.id → truthyQ t2.duration = false) →
      ∀ a, (a ∈ (greedySchedule trains config).assignments ∨
          a ∈ (optimizedSchedule trains config).assignments) →
        a.trainId ≠ t.id) := by
  have hg := greedy_map_trainId trains config
  have ho : ((optimizedSchedule trains config).assignments.map
      TrainAssignment.trainId).Perm
      ((trains.filter (fun t => truthyQ t.duration)).map Train.id) := by
    rw [optimized_assignments_map_trainId]
    exact hg
  refine ⟨hg, ho, ?_⟩
  intro t _ _ hall a hmem heq
  have hid : a.trainId ∈ ((trains.filter
      (fun u => truthyQ u.duration)).map Train.id) := by
    rcases hmem with h | h
    · exact hg.mem_iff.mp (List.mem_map_of_mem TrainAssignment.trainId h)
    · exact ho.mem_iff.mp (List.mem_map_of_mem TrainAssignment.trainId h)
  obtain ⟨t2, ht2f, ht2id⟩ := List.mem_map.mp hid
  obtain ⟨ht2m, ht2tr⟩ := List.mem_filter.mp ht2f
  have : truthyQ t2.duration = false := hall t2 ht2m (by rw [ht2id, heq])
  rw [this] at ht2tr
  cases ht2tr

/-- C3 amended witness: a truthy-duration train and an undefined-duration
train in one list. -/
theorem C3_falsy_duration_exclusion_witness :
    (((greedySchedule [trainA, negTrain] cfg1).assignments.map
        TrainAssignment.trainId).Perm
      (([trainA, negTrain].filter (fun t => truthyQ t.duration)).map
        Train.id)) ∧
    (((optimizedSchedule [trainA, negTrain] cfg1).assignments.map
        TrainAssignment.trainId).Perm
      (([trainA, negTrain].filter (fun t => truthyQ t.duration)).map
        Train.id)) ∧
    (∀ t ∈ [trainA, negTrain], truthyQ t.duration = false →
      (∀ t2 ∈ [trainA, negTrain], t2.id = t.id →
        truthyQ t2.duration = false) →
      ∀ a, (a ∈ (greedySchedule [trainA, negTrain] cfg1).assignments ∨
          a ∈ (optimizedSchedule [trainA, negTrain] cfg1).assignments) →
        a.trainId ≠ t.id) :=
  C3_falsy_duration_exclusion [trainA, negTrain] cfg1

/-- C4: with unique ids, positive durations, nonnegative headway and at
least one track, any two assignments sharing a track — in both the
greedy and the optimized schedule, fallback placements included — are
separated by the earlier occupancy plus the safety headway, so the
occupancy intervals plus headway never overlap. -/
theorem C4_no_overlap (trains : List Train) (config : RailwayConfig)
    (hnd : (trains.map Train.id).Nodup)
    (hdur : ∀ t ∈ trains, ∃ d, t.duration = some d ∧ 0 < d)
    (hh : 0 ≤ config.safetyHeadway) (ht : 1 ≤ config.tracks) :
    (greedySchedule trains config).assignments.Pairwise
      (fun a b => a.trackId = b.trackId →
        a.actualArrival + assnDur trains a + config.safetyHeadway ≤
          b.actualArrival) ∧
    (optimizedSchedule trains config).assignments.Pairwise
      (fun a b => a.trackId = b.trackId →
        a.actualArrival + assnDur trains a + config.safetyHeadway ≤
          b.actualArrival) := by
  have hg : (greedySchedule trains config).assignments.Pairwise
      (SepRel trains config) := by
    rw [greedySchedule_assignments]
    exact (greedy_inv24 trains config hnd hdur hh ht).2.2
  refine ⟨hg, ?_⟩
  rw [optimizedSchedule_eq_greedy trains config hnd hdur hh ht]
  exact hg

theorem C4_no_overlap_witness :
    ([trainA, trainB].map Train.id).Nodup ∧
    (∀ t ∈ [trainA, trainB], ∃ d, t.duration = some d ∧ 0 < d) ∧
    0 ≤ cfg1.safetyHeadway ∧ 1 ≤ cfg1.tracks ∧
    ((greedySchedule [trainA, trainB] cfg1).assignments.Pairwise
      (fun a b => a.trackId = b.trackId →
        a.actualArrival + assnDur [trainA, trainB] a + cfg1.safetyHeadway ≤
          b.actualArrival) ∧
    (optimizedSchedule [trainA, trainB] cfg1).assignments.Pairwise
      (fun a b => a.trackId = b.trackId →
        a.actualArrival + assnDur [trainA, trainB] a + cfg1.safetyHeadway ≤
          b.actualArrival)) := by
  have hdur : ∀ t ∈ [trainA, trainB], ∃ d, t.duration = some d ∧ 0 < d := by
    intro t htm
    rcases List.mem_cons.mp htm with h | h
    · subst h; exact ⟨10, rfl, by norm_num⟩
    · rcases List.mem_cons.mp h with h2 | h2
      · subst h2; exact ⟨10, rfl, by norm_num⟩
      · cases h2
  refine ⟨by decide, hdur, by with_unfolding_all decide, by decide, ?_⟩
  exact C4_no_overlap [trainA, trainB] cfg1 (by decide) hdur
    (by with_unfolding_all decide) (by decide)

/-- C5: the local improver only ever replaces the schedule by one with
strictly smaller weighted delay, so the optimized schedule's weighted
delay never exceeds the greedy schedule's. -/
theorem C5_weighted_delay_monotone (trains : List Train)
    (config : RailwayConfig) :
    (optimizedSchedule trains config).weightedDelay ≤
      (greedySchedule trains config).weightedDelay := by
  unfold optimizedSchedule applyLocalImprovements
  exact runPasses_wd_le trains config 10 _

/-- C6: with at least one track (and positive speeds, per the claim),
every assignment of either pipeline names an in-range track, has
nonnegative delay, and is consistent with an input train of its id:
`actualArrival` at or after that train's scheduled arrival and
`delay = max 0 (actualArrival - scheduledArrival)`. -/
theorem C6_assignment_invariants (trains : List Train)
    (config : RailwayConfig) (ht : 1 ≤ config.tracks)
    (hspd : ∀ t ∈ trains, 0 < t.speed) :
    (∀ a ∈ (greedySchedule trains config).assignments,
      a.trackId < config.tracks ∧ 0 ≤ a.delay ∧
      ∃ t ∈ trains, t.id = a.trainId ∧
        t.scheduledArrival ≤ a.actualArrival ∧
        a.delay = max 0 (a.actualArrival - t.scheduledArrival)) ∧
    (∀ a ∈ (optimizedSchedule trains config).assignments,
      a.trackId < config.tracks ∧ 0 ≤ a.delay ∧
      ∃ t ∈ trains, t.id = a.trainId ∧
        t.scheduledArrival ≤ a.actualArrival ∧
        a.delay = max 0 (a.actualArrival - t.scheduledArrival)) :=
  ⟨greedy_inv6 trains config ht, optimized_inv6 trains config ht⟩

theorem C6_assignment_invariants_witness :
    1 ≤ cfg1.tracks ∧ (∀ t ∈ [trainA, trainB], 0 < t.speed) ∧
    ((∀ a ∈ (greedySchedule [trainA, trainB] cfg1).assignments,
      a.trackId < cfg1.tracks ∧ 0 ≤ a.delay ∧
      ∃ t ∈ [trainA, trainB], t.id = a.trainId ∧
        t.scheduledArrival ≤ a.actualArrival ∧
        a.delay = max 0 (a.actualArrival - t.scheduledArrival)) ∧
    (∀ a ∈ (optimizedSchedule [trainA, trainB] cfg1).assignments,
      a.trackId < cfg1.tracks ∧ 0 ≤ a.delay ∧
      ∃ t ∈ [trainA, trainB], t.id = a.trainId ∧
        t.scheduledArrival ≤ a.actualArrival ∧
        a.delay = max 0 (a.actualArrival - t.scheduledArrival))) := by
  have hspd : ∀ t ∈ [trainA, trainB], 0 < t.speed := by
    intro t htm
    rcases List.mem_cons.mp htm with h | h
    · subst h; norm_num [trainA]
    · rcases List.mem_cons.mp h with h2 | h2
      · subst h2; norm_num [trainB]
      · cases h2
  exact ⟨by decide, hspd,
    C6_assignment_invariants [trainA, trainB] cfg1 (by decide) hspd⟩


theorem getD_replicate_zero (n k : ℕ) :
    (List.replicate n (0 : ℚ)).getD k 0 = 0 := by
  rw [List.getD_eq_getElem?_getD, List.getElem?_replicate]
  split <;> rfl

/-- C7: `computeScheduleMetrics`, over exactly the assignments whose
train is found and has a truthy duration, returns the sum of delays,
the sum of delay times the fixed priority weight (high 3, medium 2,
low 1), the count of assignments finishing within the horizon, and a
utilization vector of length `tracks` holding, at every track id
`k < tracks`, the summed durations assigned to `k` (zero when none). -/
theorem C7_metrics_characterization (assignments : List TrainAssignment)
    (trains : List Train) (config : RailwayConfig) :
    (computeScheduleMetrics assignments trains config).assignments =
      assignments ∧
    PRIORITY_WEIGHTS Priority.high = 3 ∧
    PRIORITY_WEIGHTS Priority.medium = 2 ∧
    PRIORITY_WEIGHTS Priority.low = 1 ∧
    (computeScheduleMetrics assignments trains config).totalDelay =
      ((assignments.filter (keepAssn trains)).map
        TrainAssignment.delay).sum ∧
    (computeScheduleMetrics assignments trains config).weightedDelay =
      ((assignments.filter (keepAssn trains)).map
        (fun a => a.delay * assnWeight trains a)).sum ∧
    (computeScheduleMetrics assignments trains config).finished =
      (assignments.filter (keepAssn trains)).countP
        (fun a => a.actualArrival + assnDur trains a ≤
          config.timeHorizon) ∧
    (computeScheduleMetrics assignments trains config).utilization.length =
      config.tracks ∧
    (∀ k, k < config.tracks →
      (computeScheduleMetrics assignments trains
          config).utilization.getD k 0 =
        (((assignments.filter (keepAssn trains)).filter
          (fun a => a.trackId == k)).map
            (fun a => assnDur trains a)).sum) := by
  obtain ⟨h1, h2, h3, h4, h5⟩ := metrics_fold_char trains config assignments
    { totalDelay := 0, weightedDelay := 0, finished := 0,
      utilization := List.replicate config.tracks 0 }
    (by simp)
  refine ⟨rfl, rfl, rfl, rfl, ?_, ?_, ?_, ?_, ?_⟩
  · show (assignments.foldl (metricsStep trains config)
      { totalDelay := 0, weightedDelay := 0, finished := 0,
        utilization := List.replicate config.tracks 0 }).totalDelay = _
    rw [h1]
    simp
  · show (assignments.foldl (metricsStep trains config)
      { totalDelay := 0, weightedDelay := 0, finished := 0,
        utilization := List.replicate config.tracks 0 }).weightedDelay = _
    rw [h2]
    simp
  · show (assignments.foldl (metricsStep trains config)
      { totalDelay := 0, weightedDelay := 0, finished := 0,
        utilization := List.replicate config.tracks 0 }).finished = _
    rw [h3]
    simp
  · exact h4
  · intro k hk
    show (assignments.foldl (metricsStep trains config)
      { totalDelay := 0, weightedDelay := 0, finished := 0,
        utilization := List.replicate config.tracks 0 }).utilization.getD
        k 0 = _
    rw [h5 k hk]
    simp [getD_replicate_zero]

/-- C7 witness: two assignments, one referring to a missing train. -/
theorem C7_metrics_characterization_witness :
    (computeScheduleMetrics
        [{ trainId := "A", trackId := 0, actualArrival := 0, delay := 0 },
         { trainId := "X", trackId := 0, actualArrival := 5, delay := 2 }]
        [trainA] cfg1).assignments =
      [{ trainId := "A", trackId := 0, actualArrival := 0, delay := 0 },
       { trainId := "X", trackId := 0, actualArrival := 5, delay := 2 }] ∧
    PRIORITY_WEIGHTS Priority.high = 3 ∧
    PRIORITY_WEIGHTS Priority.medium = 2 ∧
    PRIORITY_WEIGHTS Priority.low = 1 ∧
    (computeScheduleMetrics
        [{ trainId := "A", trackId := 0, actualArrival := 0, delay := 0 },
         { trainId := "X", trackId := 0, actualArrival := 5, delay := 2 }]
        [trainA] cfg1).totalDelay =
      (([{ trainId := "A", trackId := 0, actualArrival := 0, delay := 0 },
         { trainId := "X", trackId := 0, actualArrival := 5,
           delay := 2 }].filter (keepAssn [trainA])).map
        TrainAssignment.delay).sum ∧
    (computeScheduleMetrics
        [{ trainId := "A", trackId := 0, actualArrival := 0, delay := 0 },
         { trainId := "X", trackId := 0, actualArrival := 5, delay := 2 }]
        [trainA] cfg1).weightedDelay =
      (([{ trainId := "A", trackId := 0, actualArrival := 0, delay := 0 },
         { trainId := "X", trackId := 0, actualArrival := 5,
           delay := 2 }].filter (keepAssn [trainA])).map
        (fun a => a.delay * assnWeight [trainA] a)).sum ∧
    (computeScheduleMetrics
        [{ trainId := "A", trackId := 0, actualArrival := 0, delay := 0 },
         { trainId := "X", trackId := 0, actualArrival := 5, delay := 2 }]
        [trainA] cfg1).finished =
      ([{ trainId := "A", trackId := 0, actualArrival := 0, delay := 0 },
        { trainId := "X", trackId := 0, actualArrival := 5,
          delay := 2 }].filter (keepAssn [trainA])).countP
        (fun a => a.actualArrival + assnDur [trainA] a ≤
          cfg1.timeHorizon) ∧
    (computeScheduleMetrics
        [{ trainId := "A", trackId := 0, actualArrival := 0, delay := 0 },
         { trainId := "X", trackId := 0, actualArrival := 5, delay := 2 }]
        [trainA] cfg1).utilization.length = cfg1.tracks ∧
    (∀ k, k < cfg1.tracks →
      (computeScheduleMetrics
          [{ trainId := "A", trackId := 0, actualArrival := 0, delay := 0 },
           { trainId := "X", trackId := 0, actualArrival := 5, delay := 2 }]
          [trainA] cfg1).utilization.getD k 0 =
        ((([{ trainId := "A", trackId := 0, actualArrival := 0, delay := 0 },
            { trainId := "X", trackId := 0, actualArrival := 5,
              delay := 2 }].filter (keepAssn [trainA])).filter
          (fun a => a.trackId == k)).map
            (fun a => assnDur [trainA] a)).sum) :=
  C7_metrics_characterization
    [{ trainId := "A", trackId := 0, actualArrival := 0, delay := 0 },
     { trainId := "X", trackId := 0, actualArrival := 5, delay := 2 }]
    [trainA] cfg1

/-- C8: a delay disruption with defined `delayMinutes ≥ 0` produces a
new train list in which exactly the trains whose id equals the named
trainId have `delayMinutes` added to their scheduled arrival, all other
fields and all other trains unchanged (the `map`/record-update form;
the embedding is pure, mirroring the source's non-mutating
`map` + spread). -/
theorem C8_delay_disruption (trains : List Train) (d : Disruption)
    (dm : ℚ) (htype : d.type = DisruptionType.delay)
    (hdm : d.delayMinutes = some dm) (hnn : 0 ≤ dm) :
    applyDisruption trains d = trains.map (fun t =>
      if d.trainId = some t.id then
        { t with scheduledArrival := t.scheduledArrival + dm }
      else t) :=
  applyDisruption_delay trains d dm htype hdm

theorem C8_delay_disruption_witness :
    delayDisr.type = DisruptionType.delay ∧
    delayDisr.delayMinutes = some 12 ∧ (0 : ℚ) ≤ 12 ∧
    applyDisruption [trainA, trainB] delayDisr =
      [trainA, trainB].map (fun t =>
        if delayDisr.trainId = some t.id then
          { t with scheduledArrival := t.scheduledArrival + 12 }
        else t) :=
  ⟨rfl, rfl, by norm_num,
   C8_delay_disruption [trainA, trainB] delayDisr 12 rfl rfl (by norm_num)⟩

/-- C9: a block-track disruption leaves every train unchanged, and
`rescheduleWithDisruption` computes the before schedule from the
undisrupted trains with the original config and the after schedule with
the same config except `tracks` reduced by exactly one — independently
of which track id was named. -/
theorem C9_block_track_reschedule (trains : List Train)
    (config : RailwayConfig) (d : Disruption) (k : ℕ)
    (htype : d.type = DisruptionType.block_track)
    (htrk : d.trackId = some k) (ht : 1 ≤ config.tracks) :
    applyDisruption trains d = trains ∧
    rescheduleWithDisruption trains config d =
      (optimizedSchedule (prepareTrainsData trains config) config,
       optimizedSchedule (prepareTrainsData trains config)
         { config with tracks := config.tracks - 1 }) :=
  ⟨applyDisruption_block trains d htype,
   rescheduleWithDisruption_block trains config d k htype htrk⟩

theorem C9_block_track_reschedule_witness :
    blockDisr.type = DisruptionType.block_track ∧
    blockDisr.trackId = some 1 ∧ 1 ≤ cfg3.tracks ∧
    (applyDisruption [trainA, trainB] blockDisr = [trainA, trainB] ∧
    rescheduleWithDisruption [trainA, trainB] cfg3 blockDisr =
      (optimizedSchedule (prepareTrainsData [trainA, trainB] cfg3) cfg3,
       optimizedSchedule (prepareTrainsData [trainA, trainB] cfg3)
         { cfg3 with tracks := cfg3.tracks - 1 })) :=
  ⟨rfl, rfl, by decide,
   C9_block_track_reschedule [trainA, trainB] cfg3 blockDisr 1 rfl rfl
     (by decide)⟩

/-- C10: with one track, horizon 180, headway 3, train A (arrival 0,
duration 10, high) and train B (arrival 5, duration 10, medium), greedy
assigns A to track 0 at 0 with delay 0 and B to track 0 at 13 with
delay 8; after scheduling A alone, track 0 next becomes free at minute
13 (A's finish 10 plus headway 3). -/
theorem C10_concrete_example :
    (greedySchedule [trainA, trainB] cfg1).assignments =
      [{ trainId := "A", trackId := 0, actualArrival := 0, delay := 0 },
       { trainId := "B", trackId := 0, actualArrival := 13, delay := 8 }] ∧
    ([trainA].foldl (schedStep cfg1)
      (List.replicate cfg1.tracks 0, [])).1 = [(13 : ℚ)] :=
  ⟨by with_unfolding_all rfl, by with_unfolding_all rfl⟩

end RailFlow
